import Mathlib

/-!
Verification of the `matrix` Go package (andreipimenov/algebra).

Shallow embedding conventions:
* Go `int` is modelled as `Int` (overflow is irrelevant to the verified
  properties), `float64` as `ℚ` so that the element algebra is exact and
  executable.
* A `*Matrix` value is the structure `Matrix` below.  Methods that mutate
  the receiver in place and return `error` are embedded as functions
  returning `Matrix × Option MatrixError`: the first component is the
  receiver's state after the call, the second the returned error
  (`none` = `nil`).  Methods that return `(value, error)` and never
  mutate become `Except MatrixError value`.
* Go slice indexing `m.data[k]` appears in the source only at indices
  that are in range whenever the public API is used; it is embedded as
  `List.getD _ k 0` / `List.set k` (out-of-range reads give the default
  and out-of-range writes are dropped, rather than panicking).
* The `sync.RWMutex` locking in `get`/`set` has no sequential effect and
  is erased.
* Go `for i := 0; i < m.rows; i++ { for j := 0; j < m.cols; j++ { body } }`
  becomes a `List.foldl` over `List.range m.rows.toNat` with a nested
  `List.foldl` over `List.range m.cols.toNat`.
-/

namespace MatrixPkg

/-- Error kinds produced by the package.  Go returns formatted strings;
only the kind (which `fmt.Errorf` call produced it) is observable in the
specification, so the format arguments are dropped. -/
inductive MatrixError where
  | invalidDimensions
  | negativeIndex
  | indexOutOfRange
  | dimensionMismatch
deriving DecidableEq, Repr

/-- Embedding of `type Matrix struct { rows int; cols int; data []float64 }`. -/
structure Matrix where
  rows : Int
  cols : Int
  data : List ℚ
deriving DecidableEq, Repr

/-- Embedding of `func New(rows, cols int) (*Matrix, error)`:
`if rows < 0 || cols < 0` return the error, else a matrix with a
zero-filled slice of length `rows*cols`. -/
def Matrix.New (rows cols : Int) : Except MatrixError Matrix :=
  if rows < 0 ∨ cols < 0 then
    Except.error MatrixError.invalidDimensions
  else
    Except.ok (Matrix.mk rows cols (List.replicate (rows * cols).toNat 0))

/-- Embedding of `func (m *Matrix) Dimentions() (int, int)`. -/
def Matrix.Dimentions (m : Matrix) : Int × Int :=
  (m.rows, m.cols)

/-- Embedding of `func (m *Matrix) checkRange(i, j int) error`. -/
def Matrix.checkRange (m : Matrix) (i j : Int) : Option MatrixError :=
  if i < 0 ∨ j < 0 then
    some MatrixError.negativeIndex
  else if i ≥ m.rows ∨ j ≥ m.cols then
    some MatrixError.indexOutOfRange
  else
    none

/-- Embedding of `func (m *Matrix) checkEqualDimentions(x *Matrix) error`. -/
def Matrix.checkEqualDimentions (m x : Matrix) : Option MatrixError :=
  if m.rows ≠ x.rows ∨ m.cols ≠ x.cols then
    some MatrixError.dimensionMismatch
  else
    none

/-- Embedding of the unexported `func (m *Matrix) get(i, j int) float64`,
reading `m.data[m.cols*i+j]`. -/
def Matrix.get (m : Matrix) (i j : Int) : ℚ :=
  m.data.getD (m.cols * i + j).toNat 0

/-- Embedding of the unexported `func (m *Matrix) set(i, j int, v float64)`,
writing `m.data[m.cols*i+j] = v`; the new receiver state is returned. -/
def Matrix.set (m : Matrix) (i j : Int) (v : ℚ) : Matrix :=
  Matrix.mk m.rows m.cols (m.data.set (m.cols * i + j).toNat v)

/-- Embedding of `func (m *Matrix) Get(i, j int) (float64, error)`. -/
def Matrix.Get (m : Matrix) (i j : Int) : Except MatrixError ℚ :=
  match m.checkRange i j with
  | some e => Except.error e
  | none => Except.ok (m.get i j)

/-- Embedding of `func (m *Matrix) Set(i, j int, v float64) error`:
on a range error the receiver is returned untouched together with the
error, otherwise the updated receiver with `nil`. -/
def Matrix.Set (m : Matrix) (i j : Int) (v : ℚ) : Matrix × Option MatrixError :=
  match m.checkRange i j with
  | some e => (m, some e)
  | none => (m.set i j v, none)

/-- Embedding of `func (m *Matrix) Each(f func(i, j int, v float64) float64)`:
the row-major double loop `m.set(i, j, f(i, j, m.get(i, j)))`. -/
def Matrix.Each (m : Matrix) (f : Int → Int → ℚ → ℚ) : Matrix :=
  (List.range m.rows.toNat).foldl
    (fun a (i : Nat) =>
      (List.range m.cols.toNat).foldl
        (fun b (j : Nat) => b.set (i : Int) (j : Int) (f (i : Int) (j : Int) (b.get (i : Int) (j : Int))))
        a)
    m

/-- Embedding of `func (m *Matrix) Clone() *Matrix`: a fresh slice of
length `m.rows*m.cols` created by `make` (zero-filled), then `copy`
transfers `min(rows*cols, len(m.data))` elements from `m.data`. -/
def Matrix.Clone (m : Matrix) : Matrix :=
  Matrix.mk m.rows m.cols
    (m.data.take (m.rows * m.cols).toNat ++
      List.replicate ((m.rows * m.cols).toNat - m.data.length) 0)

/-- Embedding of `func (m *Matrix) T() *Matrix`: a fresh matrix `t` with
swapped dimensions and a zero slice of length `m.rows*m.cols`, filled by
the double loop `t.set(j, i, m.get(i, j))`. -/
def Matrix.T (m : Matrix) : Matrix :=
  (List.range m.rows.toNat).foldl
    (fun t (i : Nat) =>
      (List.range m.cols.toNat).foldl
        (fun u (j : Nat) => u.set (j : Int) (i : Int) (m.get (i : Int) (j : Int)))
        t)
    (Matrix.mk m.cols m.rows (List.replicate (m.rows * m.cols).toNat 0))

/-- Embedding of `func (m *Matrix) Add(x *Matrix) error`: dimension check,
then the in-place double loop `m.set(i, j, m.get(i, j)+x.get(i, j))`.
This is the embedding for a call whose argument `x` is a different
object from the receiver; `Matrix.AddAliased` embeds the call `m.Add(m)`. -/
def Matrix.Add (m x : Matrix) : Matrix × Option MatrixError :=
  match m.checkEqualDimentions x with
  | some e => (m, some e)
  | none =>
    ((List.range m.rows.toNat).foldl
      (fun a (i : Nat) =>
        (List.range m.cols.toNat).foldl
          (fun b (j : Nat) => b.set (i : Int) (j : Int) (b.get (i : Int) (j : Int) + x.get (i : Int) (j : Int)))
          a)
      m, none)

/-- Embedding of the call `m.Add(m)` where the Go argument pointer aliases
the receiver: every read `m.get(i, j)` and `x.get(i, j)` in the loop body
sees the current (partially updated) state of the one shared object. -/
def Matrix.AddAliased (m : Matrix) : Matrix × Option MatrixError :=
  match m.checkEqualDimentions m with
  | some e => (m, some e)
  | none =>
    ((List.range m.rows.toNat).foldl
      (fun a (i : Nat) =>
        (List.range m.cols.toNat).foldl
          (fun b (j : Nat) => b.set (i : Int) (j : Int) (b.get (i : Int) (j : Int) + b.get (i : Int) (j : Int)))
          a)
      m, none)

/-- Embedding of `func (m *Matrix) Sub(x *Matrix) error`. -/
def Matrix.Sub (m x : Matrix) : Matrix × Option MatrixError :=
  match m.checkEqualDimentions x with
  | some e => (m, some e)
  | none =>
    ((List.range m.rows.toNat).foldl
      (fun a (i : Nat) =>
        (List.range m.cols.toNat).foldl
          (fun b (j : Nat) => b.set (i : Int) (j : Int) (b.get (i : Int) (j : Int) - x.get (i : Int) (j : Int)))
          a)
      m, none)

/-- Embedding of `func (m *Matrix) Addn(n float64)`. -/
def Matrix.Addn (m : Matrix) (n : ℚ) : Matrix :=
  (List.range m.rows.toNat).foldl
    (fun a (i : Nat) =>
      (List.range m.cols.toNat).foldl
        (fun b (j : Nat) => b.set (i : Int) (j : Int) (b.get (i : Int) (j : Int) + n))
        a)
    m

/-- Embedding of `func (m *Matrix) Scale(n float64)`. -/
def Matrix.Scale (m : Matrix) (n : ℚ) : Matrix :=
  (List.range m.rows.toNat).foldl
    (fun a (i : Nat) =>
      (List.range m.cols.toNat).foldl
        (fun b (j : Nat) => b.set (i : Int) (j : Int) (b.get (i : Int) (j : Int) * n))
        a)
    m

/-- Embedding of `func (m *Matrix) Dot(x *Matrix) (float64, error)`. -/
def Matrix.Dot (m x : Matrix) : Except MatrixError ℚ :=
  match m.checkEqualDimentions x with
  | some e => Except.error e
  | none =>
    Except.ok ((List.range m.rows.toNat).foldl
      (fun r (i : Nat) =>
        (List.range m.cols.toNat).foldl
          (fun s (j : Nat) => s + m.get (i : Int) (j : Int) * x.get (i : Int) (j : Int))
          r)
      0)

/-- Representation invariant of the package: dimensions are non-negative
and the backing slice has length `rows*cols`.  Established by `New` and
preserved by every operation. -/
def Matrix.Wf (m : Matrix) : Prop :=
  0 ≤ m.rows ∧ 0 ≤ m.cols ∧ m.data.length = (m.rows * m.cols).toNat

instance : DecidablePred Matrix.Wf := fun _ =>
  inferInstanceAs (Decidable (_ ∧ _ ∧ _))

/-! ### Heap-level embedding for storage-sharing properties

A Go slice header points at a backing array; sharing or not sharing that
array is invisible to the pure value embedding above.  For the claims
about storage independence, a store of allocated `[]float64` backing
arrays is made explicit: a slice is an index into the store. -/

/-- Store of allocated `[]float64` backing arrays. -/
abbrev Store := List (List ℚ)

/-- Embedding of `*Matrix` with the `data` slice held by reference. -/
structure HMatrix where
  rows : Int
  cols : Int
  ref : Nat
deriving DecidableEq, Repr

/-- Embedding of `checkRange` for the heap-level matrix (same code as
`Matrix.checkRange`). -/
def HMatrix.checkRange (m : HMatrix) (i j : Int) : Option MatrixError :=
  if i < 0 ∨ j < 0 then
    some MatrixError.negativeIndex
  else if i ≥ m.rows ∨ j ≥ m.cols then
    some MatrixError.indexOutOfRange
  else
    none

/-- Embedding of `Clone` at the heap level: `make([]float64, rows*cols)`
allocates a fresh zero-filled backing array (a new reference at the end
of the store) and `copy(c.data, m.data)` transfers
`min(rows*cols, len(src))` elements into it; the clone's header points at
the fresh reference. -/
def hClone (s : Store) (m : HMatrix) : Store × HMatrix :=
  let src := s.getD m.ref []
  let n := (m.rows * m.cols).toNat
  (s ++ [src.take n ++ List.replicate (n - src.length) 0],
    HMatrix.mk m.rows m.cols s.length)

/-- Embedding of `Set` at the heap level: after the bounds check the
write `m.data[m.cols*i+j] = v` goes through the receiver's reference,
in place. -/
def hSet (s : Store) (m : HMatrix) (i j : Int) (v : ℚ) : Store × Option MatrixError :=
  match m.checkRange i j with
  | some e => (s, some e)
  | none => (s.set m.ref ((s.getD m.ref []).set (m.cols * i + j).toNat v), none)

/-- Folding a sequence of in-place updates over `List.range n`: at step `j`
the cell with index `idx j` is overwritten by `g j` applied to its current
contents.  This is the data-level shape shared by all the double loops of
the package. -/
def setFold (l : List ℚ) (n : Nat) (idx : Nat → Nat) (g : Nat → ℚ → ℚ) : List ℚ :=
  (List.range n).foldl (fun d j => d.set (idx j) (g j (d.getD (idx j) 0))) l

/-- Result of the first `n` outer iterations of the `Each` double loop. -/
def eachGo (m : Matrix) (f : Int → Int → ℚ → ℚ) (c' : Nat) (n : Nat) : Matrix :=
  (List.range n).foldl
    (fun a (i : Nat) =>
      (List.range c').foldl
        (fun b (j : Nat) => b.set (i : Int) (j : Int) (f (i : Int) (j : Int) (b.get (i : Int) (j : Int))))
        a)
    m

/-- Result of the first `n` outer iterations of the `T` double loop. -/
def tGo (m : Matrix) (n : Nat) : Matrix :=
  (List.range n).foldl
    (fun t (i : Nat) =>
      (List.range m.cols.toNat).foldl
        (fun u (j : Nat) => u.set (j : Int) (i : Int) (m.get (i : Int) (j : Int)))
        t)
    (Matrix.mk m.cols m.rows (List.replicate (m.rows * m.cols).toNat 0))

/-! ### List-level helper lemmas -/

lemma getD_set {α : Type} (l : List α) (i k : Nat) (a d : α) :
    (l.set i a).getD k d = if i = k ∧ i < l.length then a else l.getD k d := by
  by_cases hik : i = k
  · subst hik
    by_cases hl : i < l.length
    · rw [List.getD_eq_getElem _ _ (by simpa using hl), List.getElem_set, if_pos rfl,
        if_pos ⟨rfl, hl⟩]
    · rw [List.set_eq_of_length_le (Nat.le_of_not_lt hl), if_neg (fun hc => hl hc.2)]
  · by_cases hk : k < l.length
    · rw [List.getD_eq_getElem _ _ (by simpa using hk), List.getD_eq_getElem _ _ hk,
        List.getElem_set, if_neg hik, if_neg (fun hc => hik hc.1)]
    · rw [List.getD_eq_default _ _ (by simpa using Nat.le_of_not_lt hk),
        List.getD_eq_default _ _ (Nat.le_of_not_lt hk), if_neg (fun hc => hik hc.1)]

lemma getD_append_self {α : Type} (s : List α) (a d : α) :
    (s ++ [a]).getD s.length d = a := by
  rw [List.getD_eq_getElem _ _ (by simp)]
  rw [List.getElem_append_right (le_refl s.length)]
  simp

lemma getD_append_left {α : Type} (s t : List α) (k : Nat) (hk : k < s.length) (d : α) :
    (s ++ t).getD k d = s.getD k d := by
  rw [List.getD_eq_getElem _ _ (by simp; omega), List.getD_eq_getElem _ _ hk,
    List.getElem_append_left hk]

lemma setFold_succ (l : List ℚ) (n : Nat) (idx : Nat → Nat) (g : Nat → ℚ → ℚ) :
    setFold l (n + 1) idx g =
      (setFold l n idx g).set (idx n) (g n ((setFold l n idx g).getD (idx n) 0)) := by
  simp [setFold, List.range_succ, List.foldl_append]

lemma setFold_length (l : List ℚ) (n : Nat) (idx : Nat → Nat) (g : Nat → ℚ → ℚ) :
    (setFold l n idx g).length = l.length := by
  induction n with
  | zero => rfl
  | succ n ih => rw [setFold_succ, List.length_set, ih]

lemma setFold_getD_of_notin (l : List ℚ) (n : Nat) (idx : Nat → Nat) (g : Nat → ℚ → ℚ)
    (k : Nat) (h : ∀ j, j < n → idx j ≠ k) :
    (setFold l n idx g).getD k 0 = l.getD k 0 := by
  induction n with
  | zero => rfl
  | succ n ih =>
    rw [setFold_succ, getD_set, if_neg (fun hc => h n (Nat.lt_succ_self n) hc.1)]
    exact ih (fun j hj => h j (Nat.lt_succ_of_lt hj))

lemma setFold_getD_of_mem (l : List ℚ) (n : Nat) (idx : Nat → Nat) (g : Nat → ℚ → ℚ)
    (j : Nat) (hj : j < n) (hne : ∀ j1, j1 < n → j1 ≠ j → idx j1 ≠ idx j) :
    (setFold l n idx g).getD (idx j) 0 =
      if idx j < l.length then g j (l.getD (idx j) 0) else l.getD (idx j) 0 := by
  induction n with
  | zero => exact absurd hj (Nat.not_lt_zero j)
  | succ n ih =>
    rw [setFold_succ, getD_set, setFold_length]
    by_cases hjn : j = n
    · have hfree : ∀ j1, j1 < n → idx j1 ≠ idx n := fun j1 h1 => by
        have h2 := hne j1 (Nat.lt_succ_of_lt h1) (by omega)
        rwa [hjn] at h2
      rw [hjn, setFold_getD_of_notin _ _ _ _ _ hfree]
      by_cases hlen : idx n < l.length
      · rw [if_pos ⟨rfl, hlen⟩, if_pos hlen]
      · rw [if_neg (fun hc => hlen hc.2), if_neg hlen]
    · have hnej : idx n ≠ idx j :=
        hne n (Nat.lt_succ_self n) (fun hh => hjn hh.symm)
      rw [if_neg (fun hc => hnej hc.1)]
      exact ih (Nat.lt_of_le_of_ne (Nat.le_of_lt_succ hj) hjn)
        (fun j1 h1 => hne j1 (Nat.lt_succ_of_lt h1))

lemma list_eq_of_getD (l1 l2 : List ℚ) (hlen : l1.length = l2.length)
    (h : ∀ k, l1.getD k 0 = l2.getD k 0) : l1 = l2 := by
  refine List.ext_getElem hlen (fun n h1 h2 => ?_)
  have := h n
  rwa [List.getD_eq_getElem _ _ h1, List.getD_eq_getElem _ _ h2] at this

lemma getD_replicate_zero (n k : Nat) : (List.replicate n (0 : ℚ)).getD k 0 = 0 := by
  by_cases hk : k < n
  · rw [List.getD_eq_getElem _ _ (by simpa using hk), List.getElem_replicate]
  · rw [List.getD_eq_default _ _ (by simpa using Nat.le_of_not_lt hk)]

lemma toNat_linear (c i n : Nat) : (((c : Int)) * (i : Int) + (n : Int)).toNat = c * i + n := by
  rw [show ((c : Int) * (i : Int) + (n : Int)) = ((c * i + n : Nat) : Int) by push_cast; ring,
    Int.toNat_ofNat]

lemma foldl_id {α β : Type} (l : List β) (a : α) : l.foldl (fun x _ => x) a = a := by
  induction l generalizing a with
  | nil => rfl
  | cons b l ih => exact ih a

/-! ### Characterisation of the row-major in-place double loop -/

lemma inner_fold_eq (a : Matrix) (f : Int → Int → ℚ → ℚ) (c' i : Nat)
    (hc : a.cols = (c' : Int)) (n : Nat) :
    (List.range n).foldl
        (fun b (j : Nat) => b.set (i : Int) (j : Int) (f (i : Int) (j : Int) (b.get (i : Int) (j : Int)))) a
      = Matrix.mk a.rows a.cols
          (setFold a.data n (fun j => c' * i + j) (fun j v => f (i : Int) (j : Int) v)) := by
  induction n with
  | zero => rfl
  | succ n ih =>
    rw [List.range_succ, List.foldl_append, ih]
    simp only [List.foldl_cons, List.foldl_nil]
    rw [setFold_succ]
    unfold Matrix.set Matrix.get
    simp only [hc, toNat_linear]

lemma Each_eq_eachGo (m : Matrix) (f : Int → Int → ℚ → ℚ) :
    m.Each f = eachGo m f m.cols.toNat m.rows.toNat := rfl

lemma eachGo_shape (m : Matrix) (f : Int → Int → ℚ → ℚ) (c' : Nat)
    (hc : m.cols = (c' : Int)) (n : Nat) :
    (eachGo m f c' n).rows = m.rows ∧ (eachGo m f c' n).cols = m.cols ∧
      (eachGo m f c' n).data.length = m.data.length := by
  induction n with
  | zero => exact ⟨rfl, rfl, rfl⟩
  | succ n ih =>
    have hstep : eachGo m f c' (n + 1) =
        (List.range c').foldl
          (fun b (j : Nat) => b.set (n : Int) (j : Int)
            (f (n : Int) (j : Int) (b.get (n : Int) (j : Int))))
          (eachGo m f c' n) := by
      unfold eachGo
      rw [List.range_succ, List.foldl_append]
      simp only [List.foldl_cons, List.foldl_nil]
    rw [hstep, inner_fold_eq _ _ c' n (ih.2.1.trans hc)]
    exact ⟨ih.1, ih.2.1, by rw [setFold_length]; exact ih.2.2⟩

lemma eachGo_getD (m : Matrix) (f : Int → Int → ℚ → ℚ) (c' : Nat)
    (hc : m.cols = (c' : Int)) (n : Nat) (k : Nat) :
    (eachGo m f c' n).data.getD k 0 =
      if k < c' * n ∧ k < m.data.length then
        f ((k / c' : Nat) : Int) ((k % c' : Nat) : Int) (m.data.getD k 0)
      else m.data.getD k 0 := by
  induction n with
  | zero =>
    rw [if_neg (by omega)]
    rfl
  | succ n ih =>
    have hms : c' * (n + 1) = c' * n + c' := Nat.mul_succ c' n
    have hstep : eachGo m f c' (n + 1) =
        (List.range c').foldl
          (fun b (j : Nat) => b.set (n : Int) (j : Int)
            (f (n : Int) (j : Int) (b.get (n : Int) (j : Int))))
          (eachGo m f c' n) := by
      unfold eachGo
      rw [List.range_succ, List.foldl_append]
      simp only [List.foldl_cons, List.foldl_nil]
    have hshape := eachGo_shape m f c' hc n
    rw [hstep, inner_fold_eq _ _ c' n (hshape.2.1.trans hc)]
    by_cases hrow : c' * n ≤ k ∧ k < c' * n + c'
    · -- cell (n, k - c'*n) is written during outer iteration n
      have hcpos : 0 < c' := by omega
      obtain ⟨j, hjc, hjk⟩ : ∃ j, j < c' ∧ c' * n + j = k := ⟨k - c' * n, by omega, by omega⟩
      have hdiv : k / c' = n := by
        rw [← hjk, Nat.mul_add_div hcpos, Nat.div_eq_of_lt hjc, Nat.add_zero]
      have hmod : k % c' = j := by
        rw [← hjk, Nat.mul_add_mod, Nat.mod_eq_of_lt hjc]
      have hmem := setFold_getD_of_mem (eachGo m f c' n).data c'
        (fun j0 => c' * n + j0) (fun j0 v => f (n : Int) (j0 : Int) v) j hjc
        (fun j1 _ hne1 heq => hne1 (by simp only [] at heq; omega))
      simp only [] at hmem
      rw [hjk] at hmem
      have hQ : ¬(k < c' * n ∧ k < m.data.length) := by omega
      rw [show ((Matrix.mk (eachGo m f c' n).rows (eachGo m f c' n).cols
          (setFold (eachGo m f c' n).data c' (fun j0 => c' * n + j0)
            (fun j0 v => f (n : Int) (j0 : Int) v))).data) =
          setFold (eachGo m f c' n).data c' (fun j0 => c' * n + j0)
            (fun j0 v => f (n : Int) (j0 : Int) v) from rfl,
        hmem, hshape.2.2, ih, if_neg hQ, hdiv, hmod]
      by_cases hlen : k < m.data.length
      · rw [if_pos hlen, if_pos ⟨by omega, hlen⟩]
      · rw [if_neg hlen, if_neg (fun hc2 => hlen hc2.2)]
    · -- cell k is untouched during outer iteration n
      have hnotin : ∀ j1, j1 < c' → c' * n + j1 ≠ k := fun j1 h1 => by omega
      rw [show ((Matrix.mk (eachGo m f c' n).rows (eachGo m f c' n).cols
          (setFold (eachGo m f c' n).data c' (fun j0 => c' * n + j0)
            (fun j0 v => f (n : Int) (j0 : Int) v))).data) =
          setFold (eachGo m f c' n).data c' (fun j0 => c' * n + j0)
            (fun j0 v => f (n : Int) (j0 : Int) v) from rfl,
        setFold_getD_of_notin _ _ _ _ _ hnotin, ih]
      by_cases hk1 : k < c' * n ∧ k < m.data.length
      · rw [if_pos hk1, if_pos ⟨by omega, hk1.2⟩]
      · rw [if_neg hk1, if_neg (by omega)]

lemma eachGo_zero_cols (m : Matrix) (f : Int → Int → ℚ → ℚ) (n : Nat) :
    eachGo m f 0 n = m := by
  unfold eachGo
  simp only [List.range_zero, List.foldl_nil]
  exact foldl_id _ _

lemma Each_shape (m : Matrix) (f : Int → Int → ℚ → ℚ) :
    (m.Each f).rows = m.rows ∧ (m.Each f).cols = m.cols ∧
      (m.Each f).data.length = m.data.length := by
  rw [Each_eq_eachGo]
  by_cases hc : 0 ≤ m.cols
  · exact eachGo_shape m f m.cols.toNat (Int.toNat_of_nonneg hc).symm m.rows.toNat
  · have h0 : m.cols.toNat = 0 := by omega
    rw [h0, eachGo_zero_cols]
    exact ⟨rfl, rfl, rfl⟩

lemma Each_getD (m : Matrix) (f : Int → Int → ℚ → ℚ) (k : Nat) :
    (m.Each f).data.getD k 0 =
      if k < m.cols.toNat * m.rows.toNat ∧ k < m.data.length then
        f ((k / m.cols.toNat : Nat) : Int) ((k % m.cols.toNat : Nat) : Int) (m.data.getD k 0)
      else m.data.getD k 0 := by
  rw [Each_eq_eachGo]
  by_cases hc : 0 ≤ m.cols
  · exact eachGo_getD m f m.cols.toNat (Int.toNat_of_nonneg hc).symm m.rows.toNat k
  · have h0 : m.cols.toNat = 0 := by omega
    rw [h0, eachGo_zero_cols, if_neg (by omega)]

lemma Wf_data_length (m : Matrix) (hw : m.Wf) :
    m.data.length = m.rows.toNat * m.cols.toNat := by
  obtain ⟨hr, hc, hlen⟩ := hw
  have h1 : ((m.rows.toNat * m.cols.toNat : Nat) : Int) = m.rows * m.cols := by
    push_cast
    rw [Int.toNat_of_nonneg hr, Int.toNat_of_nonneg hc]
  rw [hlen, ← h1, Int.toNat_ofNat]

lemma Each_get (m : Matrix) (f : Int → Int → ℚ → ℚ) (hw : m.Wf) (i j : Nat)
    (hi : i < m.rows.toNat) (hj : j < m.cols.toNat) :
    (m.Each f).get (i : Int) (j : Int) = f (i : Int) (j : Int) (m.get (i : Int) (j : Int)) := by
  have hc := hw.2.1
  have hcols : m.cols = (m.cols.toNat : Int) := (Int.toNat_of_nonneg hc).symm
  have hcpos : 0 < m.cols.toNat := by omega
  have hkrange : m.cols.toNat * i + j < m.cols.toNat * m.rows.toNat := by
    have h1 : m.cols.toNat * (i + 1) = m.cols.toNat * i + m.cols.toNat := Nat.mul_succ _ _
    have h2 : m.cols.toNat * (i + 1) ≤ m.cols.toNat * m.rows.toNat :=
      Nat.mul_le_mul_left _ (Nat.succ_le_of_lt hi)
    omega
  have hklen : m.cols.toNat * i + j < m.data.length := by
    rw [Wf_data_length m hw]
    have h3 := Nat.mul_comm m.rows.toNat m.cols.toNat
    omega
  unfold Matrix.get
  rw [(Each_shape m f).2.1, hcols, toNat_linear, Each_getD, if_pos ⟨hkrange, hklen⟩,
    Nat.mul_add_div hcpos, Nat.div_eq_of_lt hj, Nat.add_zero, Nat.mul_add_mod,
    Nat.mod_eq_of_lt hj]

lemma Add_eq_Each (m x : Matrix) (h : m.checkEqualDimentions x = none) :
    m.Add x = (m.Each (fun i j v => v + x.get i j), none) := by
  unfold Matrix.Add Matrix.Each
  rw [h]

lemma Sub_eq_Each (m x : Matrix) (h : m.checkEqualDimentions x = none) :
    m.Sub x = (m.Each (fun i j v => v - x.get i j), none) := by
  unfold Matrix.Sub Matrix.Each
  rw [h]

lemma checkEqual_self (m : Matrix) : m.checkEqualDimentions m = none := by
  unfold Matrix.checkEqualDimentions
  rw [if_neg (by simp)]

lemma checkEqual_none_of_eq (m x : Matrix) (h1 : m.rows = x.rows) (h2 : m.cols = x.cols) :
    m.checkEqualDimentions x = none := by
  unfold Matrix.checkEqualDimentions
  rw [if_neg (by simp [h1, h2])]

lemma checkEqual_some_of_ne (m x : Matrix) (h : m.rows ≠ x.rows ∨ m.cols ≠ x.cols) :
    m.checkEqualDimentions x = some MatrixError.dimensionMismatch := by
  unfold Matrix.checkEqualDimentions
  rw [if_pos h]

lemma AddAliased_eq_Each (m : Matrix) :
    m.AddAliased = (m.Each (fun _ _ v => v + v), none) := by
  unfold Matrix.AddAliased Matrix.Each
  rw [checkEqual_self]

lemma Addn_eq_Each (m : Matrix) (n : ℚ) : m.Addn n = m.Each (fun _ _ v => v + n) := rfl

lemma Scale_eq_Each (m : Matrix) (n : ℚ) : m.Scale n = m.Each (fun _ _ v => v * n) := rfl

lemma Matrix_eq_of (a b : Matrix) (h1 : a.rows = b.rows) (h2 : a.cols = b.cols)
    (h3 : a.data = b.data) : a = b := by
  cases a
  cases b
  simp only at h1 h2 h3
  rw [h1, h2, h3]

/-! ### Characterisation of the transpose double loop -/

lemma T_eq_tGo (m : Matrix) : m.T = tGo m m.rows.toNat := rfl

lemma tInner_fold_eq (t : Matrix) (m : Matrix) (r0 i : Nat)
    (ht : t.cols = (r0 : Int)) (n : Nat) :
    (List.range n).foldl
        (fun u (j : Nat) => u.set (j : Int) (i : Int) (m.get (i : Int) (j : Int))) t
      = Matrix.mk t.rows t.cols
          (setFold t.data n (fun j => r0 * j + i)
            (fun j _ => m.get (i : Int) (j : Int))) := by
  induction n with
  | zero => rfl
  | succ n ih =>
    rw [List.range_succ, List.foldl_append, ih]
    simp only [List.foldl_cons, List.foldl_nil]
    rw [setFold_succ]
    unfold Matrix.set
    simp only [ht, toNat_linear]

lemma grid_index_inj (r0 i n j j' : Nat) (hi : i < r0) (hn : n < r0)
    (h : r0 * j + i = r0 * j' + n) : i = n ∧ j = j' := by
  have h1 : (r0 * j + i) % r0 = i := by
    rw [Nat.mul_add_mod, Nat.mod_eq_of_lt hi]
  have h2 : (r0 * j' + n) % r0 = n := by
    rw [Nat.mul_add_mod, Nat.mod_eq_of_lt hn]
  have h3 : i = n := by rw [← h1, ← h2, h]
  refine ⟨h3, ?_⟩
  have h4 : r0 * j = r0 * j' := by omega
  exact Nat.eq_of_mul_eq_mul_left (by omega) h4

lemma tGo_spec (m : Matrix) (r0 c' : Nat) (hr : m.rows = (r0 : Int))
    (hc : m.cols = (c' : Int)) (n : Nat) (hn : n ≤ r0) :
    (tGo m n).rows = m.cols ∧ (tGo m n).cols = m.rows ∧
      (tGo m n).data.length = r0 * c' ∧
      (∀ i j : Nat, i < r0 → j < c' →
        (tGo m n).data.getD (r0 * j + i) 0 =
          if i < n then m.get (i : Int) (j : Int) else 0) := by
  have hlen0 : (m.rows * m.cols).toNat = r0 * c' := by
    rw [hr, hc, show ((r0 : Int)) * ((c' : Int)) = ((r0 * c' : Nat) : Int) by push_cast; ring,
      Int.toNat_ofNat]
  induction n with
  | zero =>
    refine ⟨rfl, rfl, by simpa [tGo] using hlen0, fun i j hi hj => ?_⟩
    rw [if_neg (by omega)]
    show (List.replicate (m.rows * m.cols).toNat (0 : ℚ)).getD (r0 * j + i) 0 = 0
    exact getD_replicate_zero _ _
  | succ n ih =>
    have ihh := ih (by omega)
    have hstep : tGo m (n + 1) =
        (List.range m.cols.toNat).foldl
          (fun u (j : Nat) => u.set (j : Int) (n : Int) (m.get (n : Int) (j : Int)))
          (tGo m n) := by
      unfold tGo
      rw [List.range_succ, List.foldl_append]
      simp only [List.foldl_cons, List.foldl_nil]
    have hcolsn : m.cols.toNat = c' := by omega
    rw [hstep, hcolsn, tInner_fold_eq (tGo m n) m r0 n (ihh.2.1.trans hr)]
    refine ⟨ihh.1, ihh.2.1, ?_, fun i j hi hj => ?_⟩
    · simpa [setFold_length] using ihh.2.2.1
    by_cases hin : i = n
    · -- this cell is written during outer iteration n
      have hmem := setFold_getD_of_mem (tGo m n).data c' (fun j0 => r0 * j0 + n)
        (fun j0 _ => m.get (n : Int) (j0 : Int)) j hj
        (fun j1 _ hne1 heq => by
          simp only [] at heq
          exact hne1 (grid_index_inj r0 n n j1 j (by omega) (by omega) heq).2)
      simp only [] at hmem
      rw [hin, hmem, ihh.2.2.1]
      have hlt : r0 * j + n < r0 * c' := by
        have h1 : r0 * (j + 1) = r0 * j + r0 := Nat.mul_succ _ _
        have h2 : r0 * (j + 1) ≤ r0 * c' := Nat.mul_le_mul_left _ (Nat.succ_le_of_lt hj)
        omega
      rw [if_pos hlt, if_pos (by omega)]
    · -- this cell belongs to an earlier (or later) outer iteration
      have hnotin : ∀ j1, j1 < c' → r0 * j1 + n ≠ r0 * j + i := fun j1 _ heq =>
        hin (grid_index_inj r0 i n j j1 hi (by omega) heq.symm).1
      rw [setFold_getD_of_notin _ _ _ _ _ hnotin, ihh.2.2.2 i j hi hj]
      by_cases hilt : i < n
      · rw [if_pos hilt, if_pos (by omega)]
      · rw [if_neg hilt, if_neg (by omega)]

/-! ### Well-formedness preservation and pointwise helper lemmas -/

lemma Each_get_int (m : Matrix) (f : Int → Int → ℚ → ℚ) (hw : m.Wf) (i j : Int)
    (h1 : 0 ≤ i) (h2 : i < m.rows) (h3 : 0 ≤ j) (h4 : j < m.cols) :
    (m.Each f).get i j = f i j (m.get i j) := by
  have hi : i = ((i.toNat : Nat) : Int) := (Int.toNat_of_nonneg h1).symm
  have hj : j = ((j.toNat : Nat) : Int) := (Int.toNat_of_nonneg h3).symm
  rw [hi, hj]
  exact Each_get m f hw i.toNat j.toNat (by omega) (by omega)

lemma get_div_mod (m : Matrix) (k : Nat) (h1 : 0 < m.cols.toNat) :
    m.get ((k / m.cols.toNat : Nat) : Int) ((k % m.cols.toNat : Nat) : Int) =
      m.data.getD k 0 := by
  have hc' : m.cols = ((m.cols.toNat : Nat) : Int) := by omega
  unfold Matrix.get
  rw [hc']
  simp only [Int.toNat_ofNat]
  rw [toNat_linear, Nat.div_add_mod]

lemma set_Wf (m : Matrix) (hm : m.Wf) (i j : Int) (v : ℚ) : (m.set i j v).Wf := by
  refine ⟨hm.1, hm.2.1, ?_⟩
  show (m.data.set (m.cols * i + j).toNat v).length = (m.rows * m.cols).toNat
  rw [List.length_set]
  exact hm.2.2

lemma Each_Wf (m : Matrix) (f : Int → Int → ℚ → ℚ) (hm : m.Wf) : (m.Each f).Wf := by
  have h := Each_shape m f
  exact ⟨h.1 ▸ hm.1, h.2.1 ▸ hm.2.1, by rw [h.1, h.2.1, h.2.2]; exact hm.2.2⟩

lemma toNat_mul_comm_cast (a b : Nat) : (((a : Int)) * ((b : Int))).toNat = a * b := by
  rw [show ((a : Int)) * ((b : Int)) = ((a * b : Nat) : Int) by push_cast; ring,
    Int.toNat_ofNat]

lemma T_shape (m : Matrix) (hm : m.Wf) :
    (m.T).rows = m.cols ∧ (m.T).cols = m.rows ∧
      (m.T).data.length = m.rows.toNat * m.cols.toNat := by
  have hr : m.rows = ((m.rows.toNat : Nat) : Int) := (Int.toNat_of_nonneg hm.1).symm
  have hc : m.cols = ((m.cols.toNat : Nat) : Int) := (Int.toNat_of_nonneg hm.2.1).symm
  have h := tGo_spec m m.rows.toNat m.cols.toNat hr hc m.rows.toNat (le_refl _)
  rw [T_eq_tGo]
  exact ⟨h.1, h.2.1, h.2.2.1⟩

lemma T_Wf (m : Matrix) (hm : m.Wf) : (m.T).Wf := by
  have h := T_shape m hm
  refine ⟨h.1 ▸ hm.2.1, h.2.1 ▸ hm.1, ?_⟩
  rw [h.2.2, h.1, h.2.1]
  have hr : m.cols = ((m.cols.toNat : Nat) : Int) := (Int.toNat_of_nonneg hm.2.1).symm
  have hc : m.rows = ((m.rows.toNat : Nat) : Int) := (Int.toNat_of_nonneg hm.1).symm
  rw [hr, hc]
  simp only [Int.toNat_ofNat]
  rw [toNat_mul_comm_cast, Nat.mul_comm]

lemma T_get (m : Matrix) (hm : m.Wf) (i j : Nat)
    (hi : i < m.rows.toNat) (hj : j < m.cols.toNat) :
    (m.T).get (j : Int) (i : Int) = m.get (i : Int) (j : Int) := by
  have hr : m.rows = ((m.rows.toNat : Nat) : Int) := (Int.toNat_of_nonneg hm.1).symm
  have hc : m.cols = ((m.cols.toNat : Nat) : Int) := (Int.toNat_of_nonneg hm.2.1).symm
  have h := tGo_spec m m.rows.toNat m.cols.toNat hr hc m.rows.toNat (le_refl _)
  have hidx : (tGo m m.rows.toNat).get (j : Int) (i : Int) =
      (tGo m m.rows.toNat).data.getD (m.rows.toNat * j + i) 0 := by
    unfold Matrix.get
    rw [h.2.1, hr]
    simp only [Int.toNat_ofNat]
    rw [toNat_linear]
  rw [T_eq_tGo, hidx, h.2.2.2 i j hi hj, if_pos hi]

lemma Clone_data (m : Matrix) (hm : m.Wf) : m.Clone.data = m.data := by
  unfold Matrix.Clone
  show m.data.take (m.rows * m.cols).toNat ++
      List.replicate ((m.rows * m.cols).toNat - m.data.length) 0 = m.data
  rw [← hm.2.2, Nat.sub_self, List.replicate_zero, List.append_nil, List.take_length]

lemma Clone_Wf (m : Matrix) (hm : m.Wf) : m.Clone.Wf :=
  ⟨hm.1, hm.2.1, by rw [show m.Clone.data = m.data from Clone_data m hm]; exact hm.2.2⟩

/-! ### Basic facts about `Get` -/

lemma Get_ok (m : Matrix) (i j : Int) (h1 : 0 ≤ i) (h2 : i < m.rows)
    (h3 : 0 ≤ j) (h4 : j < m.cols) : m.Get i j = Except.ok (m.get i j) := by
  unfold Matrix.Get Matrix.checkRange
  rw [if_neg (by omega), if_neg (by omega)]

/-! ### Characterisation of the `Dot` accumulation loop -/

lemma foldl_add_range (g : Nat → ℚ) (n : Nat) (a : ℚ) :
    (List.range n).foldl (fun s (j : Nat) => s + g j) a =
      a + ∑ x ∈ Finset.range n, g x := by
  induction n generalizing a with
  | zero => simp
  | succ n ih =>
    rw [List.range_succ, List.foldl_append]
    simp only [List.foldl_cons, List.foldl_nil]
    rw [ih, Finset.sum_range_succ]
    ring

lemma Dot_go (m x : Matrix) (n : Nat) (a : ℚ) :
    (List.range n).foldl
        (fun r (i : Nat) =>
          (List.range m.cols.toNat).foldl
            (fun s (j : Nat) => s + m.get (i : Int) (j : Int) * x.get (i : Int) (j : Int))
            r)
        a =
      a + ∑ i ∈ Finset.range n, ∑ j ∈ Finset.range m.cols.toNat,
        m.get (i : Int) (j : Int) * x.get (i : Int) (j : Int) := by
  induction n generalizing a with
  | zero => simp
  | succ n ih =>
    rw [List.range_succ, List.foldl_append]
    simp only [List.foldl_cons, List.foldl_nil]
    rw [ih, foldl_add_range, Finset.sum_range_succ]
    ring

/-! ### Claim theorems -/

/-- C1: for all integers `r, c ≥ 0`, `New(r, c)` succeeds with a matrix of
dimensions `(r, c)` whose storage has length `r*c` and whose every valid
cell reads `0`; `New` fails with `InvalidDimensions` exactly when `r < 0`
or `c < 0` (so zero is a valid dimension giving zero-length storage). -/
theorem New_spec (r c : Int) :
    (0 ≤ r → 0 ≤ c → ∃ m, Matrix.New r c = Except.ok m ∧ m.Dimentions = (r, c) ∧
      m.data.length = (r * c).toNat ∧ m.Wf ∧
      ∀ i j : Int, 0 ≤ i → i < r → 0 ≤ j → j < c → m.Get i j = Except.ok 0) ∧
    ((r < 0 ∨ c < 0) ↔ Matrix.New r c = Except.error MatrixError.invalidDimensions) := by
  constructor
  · intro hr hc
    refine ⟨Matrix.mk r c (List.replicate (r * c).toNat 0), ?_, rfl, ?_, ?_, ?_⟩
    · unfold Matrix.New
      rw [if_neg (by omega)]
    · exact List.length_replicate _ _
    · exact ⟨hr, hc, List.length_replicate _ _⟩
    · intro i j h1 h2 h3 h4
      rw [Get_ok _ i j h1 h2 h3 h4]
      unfold Matrix.get
      rw [show (Matrix.mk r c (List.replicate (r * c).toNat (0 : ℚ))).data =
        List.replicate (r * c).toNat (0 : ℚ) from rfl, getD_replicate_zero]
  · constructor
    · intro h
      unfold Matrix.New
      rw [if_pos h]
    · intro h
      by_contra hneg
      unfold Matrix.New at h
      rw [if_neg hneg] at h
      exact Except.noConfusion h

theorem New_spec_witness :
    (∃ m, Matrix.New 2 3 = Except.ok m ∧ m.Dimentions = (2, 3) ∧ m.data.length = 6 ∧ m.Wf ∧
      ∀ i j : Int, 0 ≤ i → i < 2 → 0 ≤ j → j < 3 → m.Get i j = Except.ok 0) ∧
    (∃ m, Matrix.New 0 5 = Except.ok m ∧ m.data.length = 0) ∧
    Matrix.New (-1) 3 = Except.error MatrixError.invalidDimensions := by
  refine ⟨?_, ?_, ?_⟩
  · obtain ⟨m, h1, h2, h3, h4, h5⟩ := (New_spec 2 3).1 (by norm_num) (by norm_num)
    exact ⟨m, h1, h2, h3.trans (by decide), h4, h5⟩
  · obtain ⟨m, h1, h2, h3, h4, h5⟩ := (New_spec 0 5).1 (by norm_num) (by norm_num)
    exact ⟨m, h1, h3.trans (by decide)⟩
  · exact (New_spec (-1) 3).2.mp (Or.inl (by norm_num))

/-- C2: for any matrix, `Get(i,j)` and `Set(i,j,v)` succeed iff
`0 ≤ i < rows` and `0 ≤ j < cols`; a negative index fails with
`NegativeIndex`, and a non-negative out-of-range index fails with
`IndexOutOfRange`, the check happening before any storage access. -/
theorem Get_Set_bounds (m : Matrix) (i j : Int) (v : ℚ) :
    ((∃ q, m.Get i j = Except.ok q) ↔ 0 ≤ i ∧ i < m.rows ∧ 0 ≤ j ∧ j < m.cols) ∧
    ((m.Set i j v).2 = none ↔ 0 ≤ i ∧ i < m.rows ∧ 0 ≤ j ∧ j < m.cols) ∧
    (i < 0 ∨ j < 0 →
      m.Get i j = Except.error MatrixError.negativeIndex ∧
      (m.Set i j v).2 = some MatrixError.negativeIndex) ∧
    (0 ≤ i → 0 ≤ j → (m.rows ≤ i ∨ m.cols ≤ j) →
      m.Get i j = Except.error MatrixError.indexOutOfRange ∧
      (m.Set i j v).2 = some MatrixError.indexOutOfRange) := by
  unfold Matrix.Get Matrix.Set Matrix.checkRange
  by_cases h1 : i < 0 ∨ j < 0
  · rw [if_pos h1]
    refine ⟨⟨?_, ?_⟩, ⟨?_, ?_⟩, fun _ => ⟨rfl, rfl⟩, fun h2 h3 _ => absurd h1 (by omega)⟩
    · rintro ⟨q, hq⟩
      exact Except.noConfusion hq
    · intro hb
      exact absurd h1 (by omega)
    · intro hn
      exact Option.noConfusion hn
    · intro hb
      exact absurd h1 (by omega)
  · by_cases h2 : i ≥ m.rows ∨ j ≥ m.cols
    · rw [if_neg h1, if_pos h2]
      refine ⟨⟨?_, ?_⟩, ⟨?_, ?_⟩, fun hcon => absurd hcon h1, fun _ _ _ => ⟨rfl, rfl⟩⟩
      · rintro ⟨q, hq⟩
        exact Except.noConfusion hq
      · intro hb
        exact absurd h2 (by omega)
      · intro hn
        exact Option.noConfusion hn
      · intro hb
        exact absurd h2 (by omega)
    · rw [if_neg h1, if_neg h2]
      exact ⟨⟨fun _ => by omega, fun _ => ⟨m.get i j, rfl⟩⟩,
        ⟨fun _ => by omega, fun _ => rfl⟩,
        fun hcon => absurd hcon h1,
        fun ha hb hcon => absurd hcon (by omega)⟩

theorem Get_Set_bounds_witness :
    (∃ q, (Matrix.mk 2 2 [1, 2, 3, 4]).Get 1 1 = Except.ok q) ∧
    ((Matrix.mk 2 2 [1, 2, 3, 4]).Set (-1) 0 5).2 = some MatrixError.negativeIndex ∧
    (Matrix.mk 2 2 [1, 2, 3, 4]).Get 0 2 = Except.error MatrixError.indexOutOfRange := by
  refine ⟨?_, ?_, ?_⟩
  · exact (Get_Set_bounds (Matrix.mk 2 2 [1, 2, 3, 4]) 1 1 0).1.mpr (by decide)
  · exact ((Get_Set_bounds (Matrix.mk 2 2 [1, 2, 3, 4]) (-1) 0 5).2.2.1
      (Or.inl (by decide))).2
  · exact ((Get_Set_bounds (Matrix.mk 2 2 [1, 2, 3, 4]) 0 2 0).2.2.2
      (by decide) (by decide) (Or.inr (by decide))).1

/-- C7: when `Set`, `Add` or `Sub` returns a validation error, the
receiver's state (dimensions and all element values) is exactly what it
was before the call: the check runs before any write reaches storage.
(`New`, `Get` and `Dot` mutate nothing by construction.) -/
theorem error_no_mutation (m x : Matrix) (i j : Int) (v : ℚ) :
    ((m.Set i j v).2 ≠ none → (m.Set i j v).1 = m) ∧
    ((m.Add x).2 ≠ none → (m.Add x).1 = m) ∧
    ((m.Sub x).2 ≠ none → (m.Sub x).1 = m) := by
  refine ⟨?_, ?_, ?_⟩
  · unfold Matrix.Set
    cases hm : m.checkRange i j with
    | some e => exact fun _ => rfl
    | none => exact fun hcon => absurd rfl hcon
  · unfold Matrix.Add
    cases hm : m.checkEqualDimentions x with
    | some e => exact fun _ => rfl
    | none => exact fun hcon => absurd rfl hcon
  · unfold Matrix.Sub
    cases hm : m.checkEqualDimentions x with
    | some e => exact fun _ => rfl
    | none => exact fun hcon => absurd rfl hcon

/-- C3: `Add` fails with `DimensionMismatch` exactly when the shapes
differ; otherwise it succeeds and every cell of the (new state of the)
receiver is the old receiver cell plus the corresponding cell of `x`
(the argument `x` itself is a pure value here and is never changed). -/
theorem Add_spec (m x : Matrix) (hm : m.Wf) :
    ((m.rows ≠ x.rows ∨ m.cols ≠ x.cols) →
      m.Add x = (m, some MatrixError.dimensionMismatch)) ∧
    (m.rows = x.rows → m.cols = x.cols →
      (m.Add x).2 = none ∧
      (m.Add x).1.rows = m.rows ∧ (m.Add x).1.cols = m.cols ∧
      ∀ i j : Int, 0 ≤ i → i < m.rows → 0 ≤ j → j < m.cols →
        (m.Add x).1.get i j = m.get i j + x.get i j) := by
  constructor
  · intro h
    unfold Matrix.Add
    rw [checkEqual_some_of_ne m x h]
  · intro h1 h2
    rw [Add_eq_Each m x (checkEqual_none_of_eq m x h1 h2)]
    exact ⟨rfl, (Each_shape m _).1, (Each_shape m _).2.1,
      fun i j hi1 hi2 hj1 hj2 => Each_get_int m _ hm i j hi1 hi2 hj1 hj2⟩

theorem Add_spec_witness :
    ((Matrix.mk 2 2 [1, 2, 3, 4]).Add (Matrix.mk 2 2 [5, 6, 7, 8])).1.get 0 1 = 8 ∧
    (Matrix.mk 2 2 [1, 2, 3, 4]).Add (Matrix.mk 1 2 [5, 6]) =
      (Matrix.mk 2 2 [1, 2, 3, 4], some MatrixError.dimensionMismatch) := by
  constructor
  · have h := ((Add_spec (Matrix.mk 2 2 [1, 2, 3, 4]) (Matrix.mk 2 2 [5, 6, 7, 8])
      (by decide)).2 rfl rfl).2.2.2 0 1 (by decide) (by decide) (by decide) (by decide)
    rw [h]
    norm_num [Matrix.get, List.getD, show Int.toNat 0 = 0 from rfl,
      show Int.toNat 1 = 1 from rfl]
  · exact (Add_spec (Matrix.mk 2 2 [1, 2, 3, 4]) (Matrix.mk 1 2 [5, 6]) (by decide)).1
      (Or.inl (by decide))

/-- C4: `T` always succeeds, returns a new matrix with swapped dimensions
satisfying the representation invariant, with `T.Get(j, i) = Get(i, j)`
on every valid cell; the receiver, a pure value here, is not mutated. -/
theorem T_spec (m : Matrix) (hm : m.Wf) :
    (m.T).rows = m.cols ∧ (m.T).cols = m.rows ∧ (m.T).Wf ∧
    ∀ i j : Int, 0 ≤ i → i < m.rows → 0 ≤ j → j < m.cols →
      (m.T).Get j i = m.Get i j := by
  have hs := T_shape m hm
  refine ⟨hs.1, hs.2.1, T_Wf m hm, fun i j h1 h2 h3 h4 => ?_⟩
  have hgm : m.Get i j = Except.ok (m.get i j) := Get_ok m i j h1 h2 h3 h4
  have hgt : (m.T).Get j i = Except.ok ((m.T).get j i) :=
    Get_ok (m.T) j i h3 (by rw [hs.1]; exact h4) h1 (by rw [hs.2.1]; exact h2)
  have hi : i = ((i.toNat : Nat) : Int) := (Int.toNat_of_nonneg h1).symm
  have hj : j = ((j.toNat : Nat) : Int) := (Int.toNat_of_nonneg h3).symm
  have hval : (m.T).get j i = m.get i j := by
    rw [hi, hj]
    exact T_get m hm i.toNat j.toNat (by omega) (by omega)
  rw [hgm, hgt, hval]

theorem T_spec_witness :
    ((Matrix.mk 2 3 [1, 2, 3, 4, 5, 6]).T).rows = 3 ∧
    ((Matrix.mk 2 3 [1, 2, 3, 4, 5, 6]).T).cols = 2 ∧
    ((Matrix.mk 2 3 [1, 2, 3, 4, 5, 6]).T).Get 2 0 = Except.ok 3 := by
  have h := T_spec (Matrix.mk 2 3 [1, 2, 3, 4, 5, 6]) (by decide)
  refine ⟨h.1, h.2.1, ?_⟩
  have h2 := h.2.2.2 0 2 (by decide) (by decide) (by decide) (by decide)
  rw [h2, Get_ok (Matrix.mk 2 3 [1, 2, 3, 4, 5, 6]) 0 2 (by decide) (by decide)
    (by decide) (by decide)]
  refine congrArg Except.ok ?_
  norm_num [Matrix.get, List.getD, show Int.toNat 2 = 2 from rfl]

/-- C5: `Dot` fails with `DimensionMismatch` exactly when the shapes
differ, and otherwise returns the Frobenius elementwise inner product
(the sum of `m(i,j) * x(i,j)` over all cells), not the matrix product;
on `A = [[1,2],[3,4]]`, `B = [[5,6],[7,8]]` it returns `70`. -/
theorem Dot_spec (m x : Matrix) :
    ((m.rows ≠ x.rows ∨ m.cols ≠ x.cols) →
      m.Dot x = Except.error MatrixError.dimensionMismatch) ∧
    (m.rows = x.rows → m.cols = x.cols →
      m.Dot x = Except.ok (∑ i ∈ Finset.range m.rows.toNat,
        ∑ j ∈ Finset.range m.cols.toNat,
          m.get (i : Int) (j : Int) * x.get (i : Int) (j : Int))) := by
  constructor
  · intro h
    unfold Matrix.Dot
    rw [checkEqual_some_of_ne m x h]
  · intro h1 h2
    unfold Matrix.Dot
    rw [checkEqual_none_of_eq m x h1 h2]
    refine congrArg Except.ok ?_
    rw [Dot_go m x m.rows.toNat 0, zero_add]

theorem Dot_spec_witness :
    (Matrix.mk 2 2 [1, 2, 3, 4]).Dot (Matrix.mk 2 2 [5, 6, 7, 8]) = Except.ok 70 ∧
    (Matrix.mk 2 2 [1, 2, 3, 4]).Dot (Matrix.mk 2 1 [5, 6]) =
      Except.error MatrixError.dimensionMismatch := by
  constructor
  · have h := (Dot_spec (Matrix.mk 2 2 [1, 2, 3, 4]) (Matrix.mk 2 2 [5, 6, 7, 8])).2 rfl rfl
    rw [h]
    refine congrArg Except.ok ?_
    norm_num [Finset.sum_range_succ, Matrix.get, List.getD,
      show Int.toNat 2 = 2 from rfl]
    norm_num [show Int.toNat 2 = 2 from rfl, show Int.toNat 3 = 3 from rfl, List.getD]
  · exact (Dot_spec (Matrix.mk 2 2 [1, 2, 3, 4]) (Matrix.mk 2 1 [5, 6])).1
      (Or.inr (by decide))

theorem error_no_mutation_witness :
    ((Matrix.mk 2 2 [1, 2, 3, 4]).Set 5 0 9).1 = Matrix.mk 2 2 [1, 2, 3, 4] ∧
    ((Matrix.mk 2 2 [1, 2, 3, 4]).Add (Matrix.mk 1 1 [7])).1 = Matrix.mk 2 2 [1, 2, 3, 4] := by
  constructor
  · exact (error_no_mutation (Matrix.mk 2 2 [1, 2, 3, 4]) (Matrix.mk 1 1 [7]) 5 0 9).1
      (by decide)
  · exact (error_no_mutation (Matrix.mk 2 2 [1, 2, 3, 4]) (Matrix.mk 1 1 [7]) 5 0 9).2.1
      (by decide)

/-- C6: the representation invariant `data.length = rows*cols` (with
non-negative dimensions) holds for every matrix built by `New` and is
preserved by `Set`, `Each`, `Add`, `Sub`, `Addn` and `Scale`, and the new
instances built by `T` and `Clone` satisfy it as well. -/
theorem Wf_invariant (m x : Matrix) (i j : Int) (v n : ℚ) (f : Int → Int → ℚ → ℚ)
    (r c : Int) (hm : m.Wf) (_hx : x.Wf) :
    (∀ m0, Matrix.New r c = Except.ok m0 → m0.Wf) ∧
    (m.Set i j v).1.Wf ∧ (m.Each f).Wf ∧ (m.Add x).1.Wf ∧ (m.Sub x).1.Wf ∧
    (m.Addn n).Wf ∧ (m.Scale n).Wf ∧ (m.T).Wf ∧ (m.Clone).Wf := by
  refine ⟨?_, ?_, Each_Wf m f hm, ?_, ?_, ?_, ?_, T_Wf m hm, Clone_Wf m hm⟩
  · intro m0 h
    unfold Matrix.New at h
    by_cases hneg : r < 0 ∨ c < 0
    · rw [if_pos hneg] at h
      exact Except.noConfusion h
    · rw [if_neg hneg] at h
      injection h with h2
      rw [← h2]
      exact ⟨show (0 : Int) ≤ r by omega, show (0 : Int) ≤ c by omega,
        List.length_replicate _ _⟩
  · unfold Matrix.Set
    cases hc : m.checkRange i j with
    | some e => exact hm
    | none => exact set_Wf m hm i j v
  · cases hc : m.checkEqualDimentions x with
    | some e =>
      unfold Matrix.Add
      rw [hc]
      exact hm
    | none =>
      rw [Add_eq_Each m x hc]
      exact Each_Wf m _ hm
  · cases hc : m.checkEqualDimentions x with
    | some e =>
      unfold Matrix.Sub
      rw [hc]
      exact hm
    | none =>
      rw [Sub_eq_Each m x hc]
      exact Each_Wf m _ hm
  · rw [Addn_eq_Each]
    exact Each_Wf m _ hm
  · rw [Scale_eq_Each]
    exact Each_Wf m _ hm

theorem Wf_invariant_witness :
    ((Matrix.mk 2 2 [1, 2, 3, 4]).Set 0 0 9).1.Wf ∧
    ((Matrix.mk 2 2 [1, 2, 3, 4]).T).Wf ∧
    ((Matrix.mk 2 2 [1, 2, 3, 4]).Add (Matrix.mk 2 2 [5, 6, 7, 8])).1.Wf := by
  have h := Wf_invariant (Matrix.mk 2 2 [1, 2, 3, 4]) (Matrix.mk 2 2 [5, 6, 7, 8])
    0 0 9 3 (fun _ _ v => v) 2 2 (by decide) (by decide)
  exact ⟨h.2.1, h.2.2.2.2.2.2.2.1, h.2.2.2.1⟩

/-- C9: `Scale(1)` and `Addn(0)` leave the matrix unchanged, and on
same-shaped matrices `Add(x)` followed by `Sub(x)` restores the receiver
exactly (elements are modelled as exact rationals, so the identities hold
with no floating-point error at all). -/
theorem identities (m x : Matrix) (h1 : m.rows = x.rows) (h2 : m.cols = x.cols) :
    m.Scale 1 = m ∧ m.Addn 0 = m ∧ (m.Add x).1.Sub x = (m, none) := by
  refine ⟨?_, ?_, ?_⟩
  · rw [Scale_eq_Each]
    refine Matrix_eq_of _ _ (Each_shape m _).1 (Each_shape m _).2.1
      (list_eq_of_getD _ _ (Each_shape m _).2.2 (fun k => ?_))
    rw [Each_getD]
    by_cases hk : k < m.cols.toNat * m.rows.toNat ∧ k < m.data.length
    · rw [if_pos hk]
      show m.data.getD k 0 * 1 = m.data.getD k 0
      rw [mul_one]
    · rw [if_neg hk]
  · rw [Addn_eq_Each]
    refine Matrix_eq_of _ _ (Each_shape m _).1 (Each_shape m _).2.1
      (list_eq_of_getD _ _ (Each_shape m _).2.2 (fun k => ?_))
    rw [Each_getD]
    by_cases hk : k < m.cols.toNat * m.rows.toNat ∧ k < m.data.length
    · rw [if_pos hk]
      show m.data.getD k 0 + 0 = m.data.getD k 0
      rw [add_zero]
    · rw [if_neg hk]
  · have hchk : m.checkEqualDimentions x = none := checkEqual_none_of_eq m x h1 h2
    rw [Add_eq_Each m x hchk]
    show (m.Each (fun i j v => v + x.get i j)).Sub x = (m, none)
    have hA := Each_shape m (fun i j v => v + x.get i j)
    have hchk2 : (m.Each (fun i j v => v + x.get i j)).checkEqualDimentions x = none :=
      checkEqual_none_of_eq _ _ (hA.1.trans h1) (hA.2.1.trans h2)
    rw [Sub_eq_Each _ x hchk2]
    have hmain : (m.Each (fun i j v => v + x.get i j)).Each
        (fun i j v => v - x.get i j) = m := by
      refine Matrix_eq_of _ _ ?_ ?_ ?_
      · rw [(Each_shape _ _).1, hA.1]
      · rw [(Each_shape _ _).2.1, hA.2.1]
      · refine list_eq_of_getD _ _ ?_ (fun k => ?_)
        · rw [(Each_shape _ _).2.2, hA.2.2]
        · rw [Each_getD (m.Each (fun i j v => v + x.get i j)) _ k, hA.1, hA.2.1, hA.2.2,
            Each_getD m _ k]
          by_cases hk : k < m.cols.toNat * m.rows.toNat ∧ k < m.data.length
          · rw [if_pos hk, if_pos hk]
            show (m.data.getD k 0 +
                x.get ((k / m.cols.toNat : Nat) : Int) ((k % m.cols.toNat : Nat) : Int)) -
              x.get ((k / m.cols.toNat : Nat) : Int) ((k % m.cols.toNat : Nat) : Int) =
              m.data.getD k 0
            ring
          · rw [if_neg hk, if_neg hk]
    rw [hmain]

theorem identities_witness :
    (Matrix.mk 2 2 [1, 2, 3, 4]).Scale 1 = Matrix.mk 2 2 [1, 2, 3, 4] ∧
    (Matrix.mk 2 2 [1, 2, 3, 4]).Addn 0 = Matrix.mk 2 2 [1, 2, 3, 4] ∧
    ((Matrix.mk 2 2 [1, 2, 3, 4]).Add (Matrix.mk 2 2 [5, 6, 7, 8])).1.Sub
      (Matrix.mk 2 2 [5, 6, 7, 8]) = (Matrix.mk 2 2 [1, 2, 3, 4], none) :=
  identities (Matrix.mk 2 2 [1, 2, 3, 4]) (Matrix.mk 2 2 [5, 6, 7, 8]) rfl rfl

/-- C10: the aliased call `m.Add(m)` passes the dimension check and
doubles every cell; the row-major in-place loop reads each cell exactly
once, just before its own single write, so the aliased run produces the
same result as adding a snapshot of `m` to itself. -/
theorem alias_Add_doubles (m : Matrix) (hm : m.Wf) :
    (m.AddAliased).2 = none ∧ m.AddAliased = m.Add m ∧
    ∀ i j : Int, 0 ≤ i → i < m.rows → 0 ≤ j → j < m.cols →
      (m.AddAliased).1.get i j = 2 * m.get i j := by
  have heq : m.AddAliased = m.Add m := by
    rw [AddAliased_eq_Each, Add_eq_Each m m (checkEqual_self m)]
    have hmain : m.Each (fun _ _ v => v + v) = m.Each (fun i j v => v + m.get i j) := by
      refine Matrix_eq_of _ _ ?_ ?_ ?_
      · rw [(Each_shape m _).1, (Each_shape m _).1]
      · rw [(Each_shape m _).2.1, (Each_shape m _).2.1]
      · refine list_eq_of_getD _ _ ?_ (fun k => ?_)
        · rw [(Each_shape m _).2.2, (Each_shape m _).2.2]
        · rw [Each_getD, Each_getD]
          by_cases hk : k < m.cols.toNat * m.rows.toNat ∧ k < m.data.length
          · rw [if_pos hk, if_pos hk]
            obtain ⟨hk1, hk2⟩ := hk
            have hcpos : 0 < m.cols.toNat := by
              by_contra hcon
              have hc0 : m.cols.toNat = 0 := by omega
              rw [hc0, Nat.zero_mul] at hk1
              omega
            show m.data.getD k 0 + m.data.getD k 0 = m.data.getD k 0 +
              m.get ((k / m.cols.toNat : Nat) : Int) ((k % m.cols.toNat : Nat) : Int)
            rw [get_div_mod m k hcpos]
          · rw [if_neg hk, if_neg hk]
    rw [hmain]
  refine ⟨?_, heq, fun i j hi1 hi2 hj1 hj2 => ?_⟩
  · rw [AddAliased_eq_Each]
  · rw [AddAliased_eq_Each]
    show (m.Each (fun _ _ v => v + v)).get i j = 2 * m.get i j
    rw [Each_get_int m _ hm i j hi1 hi2 hj1 hj2]
    show m.get i j + m.get i j = 2 * m.get i j
    ring

theorem alias_Add_doubles_witness :
    ((Matrix.mk 2 2 [1, 2, 3, 4]).AddAliased).2 = none ∧
    ((Matrix.mk 2 2 [1, 2, 3, 4]).AddAliased).1.get 0 0 = 2 := by
  have h := alias_Add_doubles (Matrix.mk 2 2 [1, 2, 3, 4]) (by decide)
  refine ⟨h.1, ?_⟩
  have h2 := h.2.2 0 0 (by decide) (by decide) (by decide) (by decide)
  rw [h2]
  norm_num [Matrix.get, List.getD, show Int.toNat 0 = 0 from rfl]

/-- C8: `Clone` allocates a fresh backing array holding the same values,
so clone and original have equal dimensions and contents and never share
storage: a heap-level `Set` through the original's reference leaves the
clone's backing array untouched, and vice versa. -/
theorem Clone_independent (s : Store) (m : HMatrix) (i j : Int) (v : ℚ)
    (href : m.ref < s.length)
    (hlen : (s.getD m.ref []).length = (m.rows * m.cols).toNat) :
    ((hClone s m).2.rows = m.rows ∧ (hClone s m).2.cols = m.cols) ∧
    (hClone s m).2.ref ≠ m.ref ∧
    (hClone s m).1.getD (hClone s m).2.ref [] = s.getD m.ref [] ∧
    (hClone s m).1.getD m.ref [] = s.getD m.ref [] ∧
    (hSet (hClone s m).1 m i j v).1.getD (hClone s m).2.ref [] =
      (hClone s m).1.getD (hClone s m).2.ref [] ∧
    (hSet (hClone s m).1 (hClone s m).2 i j v).1.getD m.ref [] =
      (hClone s m).1.getD m.ref [] := by
  have hsrc : (s.getD m.ref []).take (m.rows * m.cols).toNat ++
      List.replicate ((m.rows * m.cols).toNat - (s.getD m.ref []).length) 0 =
      s.getD m.ref [] := by
    rw [← hlen, Nat.sub_self, List.replicate_zero, List.append_nil, List.take_length]
  have hc1 : (hClone s m).1 = s ++ [s.getD m.ref []] := by
    unfold hClone
    dsimp only
    rw [hsrc]
  have hc2 : (hClone s m).2 = HMatrix.mk m.rows m.cols s.length := rfl
  refine ⟨⟨rfl, rfl⟩, ?_, ?_, ?_, ?_, ?_⟩
  · show s.length ≠ m.ref
    omega
  · rw [hc1]
    exact getD_append_self s (s.getD m.ref []) []
  · rw [hc1]
    exact getD_append_left s [s.getD m.ref []] m.ref href []
  · cases hchk : m.checkRange i j with
    | some e =>
      unfold hSet
      rw [hchk]
    | none =>
      unfold hSet
      rw [hchk]
      show ((hClone s m).1.set m.ref _).getD s.length [] = (hClone s m).1.getD s.length []
      rw [getD_set]
      rw [if_neg (fun hcc => absurd hcc.1 (by omega))]
  · cases hchk : (hClone s m).2.checkRange i j with
    | some e =>
      unfold hSet
      rw [hchk]
    | none =>
      unfold hSet
      rw [hchk]
      show ((hClone s m).1.set s.length _).getD m.ref [] = (hClone s m).1.getD m.ref []
      rw [getD_set]
      rw [if_neg (fun hcc => absurd hcc.1 (by omega))]

theorem Clone_independent_witness :
    (hClone [[1, 2, 3, 4]] (HMatrix.mk 2 2 0)).2.ref ≠ 0 ∧
    (hClone [[1, 2, 3, 4]] (HMatrix.mk 2 2 0)).1.getD
      (hClone [[1, 2, 3, 4]] (HMatrix.mk 2 2 0)).2.ref [] = [1, 2, 3, 4] ∧
    (hSet (hClone [[1, 2, 3, 4]] (HMatrix.mk 2 2 0)).1 (HMatrix.mk 2 2 0) 0 1 9).1.getD
      (hClone [[1, 2, 3, 4]] (HMatrix.mk 2 2 0)).2.ref [] =
      (hClone [[1, 2, 3, 4]] (HMatrix.mk 2 2 0)).1.getD
        (hClone [[1, 2, 3, 4]] (HMatrix.mk 2 2 0)).2.ref [] := by
  have h := Clone_independent [[1, 2, 3, 4]] (HMatrix.mk 2 2 0) 0 1 9
    (by decide) (by decide)
  exact ⟨h.2.1, h.2.2.1, h.2.2.2.2.1⟩

end MatrixPkg
